import Mathlib

/-! Verification development for the `sfmt` tree serializer of this repository
(`src/include/sfmt.hpp`).  The C++ class `sfmt::Object` stores a
`std::variant` of a string, a vector of objects, or an ordered
`std::map` from string keys to objects, and serializes the tree with
`fmt` (compact) and `fmt_pretty` (indented), both implemented by the
recursive member function `fmt_impl`.  Every definition below is a direct
shallow embedding of that header; theorems settle the specification
claims about it. -/

namespace sfmt

/-- Embedding of `enum class ObjectType  VALUE, LIST, TABLE ` from
`sfmt.hpp`. -/
inductive ObjectType where
  | VALUE
  | LIST
  | TABLE
deriving DecidableEq

/-- Embedding of the state of `sfmt::Object`: the member `m_data` is a
`std::variant` over `std::string`, `std::vector<Object>` and
`std::map<std::string, Object>`.  A map value is represented by its entry
sequence in iteration order (ascending keys, as produced by the factory
`Object.tableF` below). -/
inductive Object where
  | value : String → Object
  | list : List Object → Object
  | table : List (String × Object) → Object

/-- Embedding of `Object::indent_str`: a string of `level * 2` spaces. -/
def indent_str (level : Nat) : String :=
  String.mk (List.replicate (level * 2) ' ')

mutual

/-- Embedding of `Object::fmt_impl(size_t indent, bool pretty)`.  The
visitor cases are in the source order: string (VALUE), vector (LIST),
map (TABLE); the per-element loops are split into the helper functions
below, one per loop. -/
def fmt_impl : Object → Nat → Bool → String
  | .value s, _, _ => "\"" ++ s ++ "\""
  | .list xs, indent, pretty =>
      if xs.isEmpty then "[]"
      else if !pretty then
        "[" ++ fmt_list_compact xs ++ "]"
      else
        "[\n" ++ fmt_list_pretty xs indent ++ "\n" ++ indent_str indent ++ "]"
  | .table m, indent, pretty =>
      if m.isEmpty then "\x7b\x7d"
      else if !pretty then
        "\x7b" ++ fmt_table_compact m ++ "\x7d"
      else
        "\x7b\n" ++ fmt_table_pretty m indent ++ "\n" ++ indent_str indent ++ "\x7d"

/-- The compact LIST loop of `fmt_impl`: each element is appended with
`fmt_impl(0, false)` and no separator. -/
def fmt_list_compact : List Object → String
  | [] => ""
  | x :: xs => fmt_impl x 0 false ++ fmt_list_compact xs

/-- The pretty LIST loop of `fmt_impl`: each element on its own line at
`indent + 1`, with a newline after every element except the last. -/
def fmt_list_pretty : List Object → Nat → String
  | [], _ => ""
  | [x], indent => indent_str (indent + 1) ++ fmt_impl x (indent + 1) true
  | x :: y :: xs, indent =>
      indent_str (indent + 1) ++ fmt_impl x (indent + 1) true ++ "\n" ++
        fmt_list_pretty (y :: xs) indent

/-- The compact TABLE loop of `fmt_impl`: for each entry the source
appends the empty string, then the quoted key, then the value's compact
encoding, then an equals sign — the equals sign comes after the value and
there is no separator between entries. -/
def fmt_table_compact : List (String × Object) → String
  | [] => ""
  | (k, v) :: rest =>
      "" ++ ("\"" ++ k ++ "\"") ++ fmt_impl v 0 false ++ "=" ++ fmt_table_compact rest

/-- The pretty TABLE loop of `fmt_impl`: per entry the source emits the
indent, an opening brace, the quoted key followed by a closing brace, an
equals sign, the value (inline when its encoding has no newline,
otherwise on its own deeper line), and another closing brace; entries are
separated by newlines.  The newline test `val.find of a newline != npos`
is embedded as membership of the newline character in the string's
character data. -/
def fmt_table_pretty : List (String × Object) → Nat → String
  | [], _ => ""
  | [(k, v)], indent =>
      indent_str (indent + 1) ++ "\x7b" ++ ("\"" ++ k ++ "\"\x7d") ++ "=" ++
        (fun val =>
          if val.data.contains '\n' then
            "\n" ++ indent_str (indent + 2) ++ val ++ "\n" ++ indent_str (indent + 1)
          else
            val) (fmt_impl v (indent + 2) true) ++ "\x7d"
  | (k, v) :: e :: rest, indent =>
      indent_str (indent + 1) ++ "\x7b" ++ ("\"" ++ k ++ "\"\x7d") ++ "=" ++
        (fun val =>
          if val.data.contains '\n' then
            "\n" ++ indent_str (indent + 2) ++ val ++ "\n" ++ indent_str (indent + 1)
          else
            val) (fmt_impl v (indent + 2) true) ++ "\x7d" ++ "\n" ++
        fmt_table_pretty (e :: rest) indent

end

/-- Embedding of `Object::fmt`: compact single-line serialization. -/
def Object.fmt (o : Object) : String := fmt_impl o 0 false

/-- Embedding of `Object::fmt_pretty`: pretty multi-line serialization. -/
def Object.fmt_pretty (o : Object) : String := fmt_impl o 0 true

/-- Embedding of `Object::type`: the visitor returning the `ObjectType`
tag of the variant alternative currently held by `m_data`. -/
def Object.type : Object → ObjectType
  | .value _ => .VALUE
  | .list _ => .LIST
  | .table _ => .TABLE

/-- Embedding of `Object::get_value`: `std::get_if` on the string
alternative, `nullopt` otherwise. -/
def Object.get_value : Object → Option String
  | .value s => some s
  | _ => none

/-- Embedding of `Object::get_list`: `std::get_if` on the vector
alternative, `nullopt` otherwise. -/
def Object.get_list : Object → Option (List Object)
  | .list xs => some xs
  | _ => none

/-- Embedding of `Object::get_table`: `std::get_if` on the map
alternative, `nullopt` otherwise. -/
def Object.get_table : Object → Option (List (String × Object))
  | .table m => some m
  | _ => none

/-- Lexicographic comparison of character sequences by code point,
embedding `std::string`'s `operator<` (the comparator `std::less` of the
`std::map` used for tables). -/
def charListLt : List Char → List Char → Bool
  | [], [] => false
  | [], _ :: _ => true
  | _ :: _, [] => false
  | a :: as, b :: bs =>
      if a.toNat < b.toNat then true
      else if b.toNat < a.toNat then false
      else charListLt as bs

/-- String comparison used by the table's `std::map`. -/
def strLt (a b : String) : Bool := charListLt a.data b.data

/-- One `std::map::insert` step into an entry list kept in ascending key
order: a key already present (neither less nor greater) is left
untouched, so the first inserted value for a key wins. -/
def mapInsert : List (String × Object) → String × Object → List (String × Object)
  | [], e => [e]
  | (k, v) :: rest, e =>
      if strLt e.1 k then e :: (k, v) :: rest
      else if strLt k e.1 then (k, v) :: mapInsert rest e
      else (k, v) :: rest

/-- Construction of a `std::map<std::string, Object>` from an
`initializer_list`: the elements are inserted one by one in literal
order. -/
def mapOfList (il : List (String × Object)) : List (String × Object) :=
  il.foldl mapInsert []

/-- Embedding of the factory `Object::table(std::initializer_list ...)`:
`m_data` is set to the map built from the literal entry list. -/
def Object.tableF (il : List (String × Object)) : Object :=
  .table (mapOfList il)

/-- Embedding of the default-constructed `Object`: the member initializer
of `m_data` selects the string alternative holding the empty string. -/
def Object.defaultObj : Object := .value ""

/-- The per-entry string produced by the compact TABLE loop: quoted key,
then the value's compact encoding, then the equals sign. -/
def entryCompact (p : String × Object) : String :=
  "\"" ++ p.1 ++ "\"" ++ Object.fmt p.2 ++ "="

/-- The per-entry string produced by the pretty TABLE loop (the body of
one iteration of the source loop, without the separating newline). -/
def fmt_table_entry (indent : Nat) (k : String) (v : Object) : String :=
  indent_str (indent + 1) ++ "\x7b" ++ ("\"" ++ k ++ "\"\x7d") ++ "=" ++
    (fun val =>
      if val.data.contains '\n' then
        "\n" ++ indent_str (indent + 2) ++ val ++ "\n" ++ indent_str (indent + 1)
      else
        val) (fmt_impl v (indent + 2) true) ++ "\x7d"

/-- Strict ascending order on table entries: the first key is less than
the second under the map's comparator. -/
def keyLt (a b : String × Object) : Prop := strLt a.1 b.1 = true

/-- Characters that the pretty printer inserts and a parser would treat
as insignificant: the predicate keeps every character that is neither a
space nor a newline. -/
def wsP (c : Char) : Bool := !(c == ' ' || c == '\n')

/-- Deletion of all spaces and newlines from a string. -/
def stripWs (s : String) : String := String.mk (s.data.filter wsP)

mutual

/-- Trees whose pretty encoding differs from the compact encoding only by
inserted spaces and newlines: no table occurs, and no scalar text
contains a space or newline of its own. -/
def ws_free : Object → Bool
  | .value s => s.data.all wsP
  | .list xs => ws_free_list xs
  | .table _ => false

/-- `ws_free` on every element of a list. -/
def ws_free_list : List Object → Bool
  | [] => true
  | x :: xs => ws_free x && ws_free_list xs

end

/-! Helper lemmas. -/

theorem foldl_append_init (l : List String) (a : String) :
    List.foldl (fun r t => r ++ t) a l = a ++ List.foldl (fun r t => r ++ t) "" l := by
  induction l generalizing a with
  | nil => simp [String.append_empty]
  | cons s l ih =>
    simp only [List.foldl_cons]
    rw [ih (a ++ s), ih ("" ++ s), String.empty_append, String.append_assoc]

theorem string_join_cons (s : String) (l : List String) :
    String.join (s :: l) = s ++ String.join l := by
  show List.foldl (fun r t => r ++ t) ("" ++ s) l = s ++ List.foldl (fun r t => r ++ t) "" l
  rw [String.empty_append, foldl_append_init]

theorem intercalate_go_append (s : String) (as : List String) (a b : String) :
    String.intercalate.go (a ++ b) s as = a ++ String.intercalate.go b s as := by
  induction as generalizing b with
  | nil => simp [String.intercalate.go]
  | cons c cs ih =>
    simp only [String.intercalate.go]
    rw [String.append_assoc a b s, String.append_assoc a (b ++ s) c, ih ((b ++ s) ++ c)]

theorem intercalate_cons_cons (s a b : String) (l : List String) :
    String.intercalate s (a :: b :: l) = a ++ s ++ String.intercalate s (b :: l) := by
  show String.intercalate.go (a ++ s ++ b) s l = a ++ s ++ String.intercalate.go b s l
  exact intercalate_go_append s l (a ++ s) b

theorem fmt_list_compact_eq_join : ∀ xs : List Object,
    fmt_list_compact xs = String.join (xs.map Object.fmt)
  | [] => rfl
  | x :: xs => by
      rw [List.map_cons, string_join_cons, ← fmt_list_compact_eq_join xs]
      rfl

theorem fmt_table_compact_eq_join : ∀ m : List (String × Object),
    fmt_table_compact m = String.join (m.map entryCompact)
  | [] => rfl
  | (k, v) :: rest => by
      rw [List.map_cons, string_join_cons, ← fmt_table_compact_eq_join rest]
      rfl

theorem fmt_table_pretty_eq_intercalate : ∀ (m : List (String × Object)) (indent : Nat),
    fmt_table_pretty m indent =
      String.intercalate "\n" (m.map fun p => fmt_table_entry indent p.1 p.2)
  | [], _ => rfl
  | [(k, v)], _ => rfl
  | (k, v) :: e :: rest, indent => by
      have ih := fmt_table_pretty_eq_intercalate (e :: rest) indent
      rw [List.map_cons] at ih
      rw [List.map_cons, List.map_cons, intercalate_cons_cons, ← ih]
      rfl

theorem fmt_impl_compact_indent (t : Object) (i : Nat) :
    fmt_impl t i false = fmt_impl t 0 false := by
  cases t <;> simp [fmt_impl]

/-! Claims C1 to C5 and C8 to C10. -/

/-- C1 (counterexample): encoding the sample table of `main.cpp` in
compact mode does not yield the string claimed by the spec (quoted values
after equals signs, comma-separated); the code puts the equals sign after
each value and separates nothing. -/
theorem sample_compact_claimed_output_wrong :
    (Object.tableF [("key1", Object.value "value1"),
      ("key2", Object.list [Object.value "value2", Object.value "value3"])]).fmt ≠
    "\x7b\"key1\"=\"value1\",\"key2\"=[\"value2\",\"value3\"]\x7d" := by
  decide

/-- C1 (amended): encoding the sample tree
`table(key1 -> scalar value1, key2 -> list(scalar value2, scalar value3))`
in compact mode yields the string in which each entry is rendered as the
quoted key immediately followed by the value's encoding and a trailing
equals sign, with no separator between entries or list elements. -/
theorem sample_compact_output :
    (Object.tableF [("key1", Object.value "value1"),
      ("key2", Object.list [Object.value "value2", Object.value "value3"])]).fmt =
    "\x7b\"key1\"\"value1\"=\"key2\"[\"value2\"\"value3\"]=\x7d" := by
  decide

/-- C2 (counterexample): the compact encoding of the two-element list of
scalars a and b is not the bracketed comma-joined form the claim
states. -/
theorem list_compact_not_comma_joined :
    (Object.list [Object.value "a", Object.value "b"]).fmt ≠ "[\"a\",\"b\"]" := by
  decide

/-- C2 (amended): for every non-empty list node, the compact encoding is
the character `[`, followed by the compact encodings of the children in
order concatenated with NO separator, followed by `]`. -/
theorem list_compact_concatenates (xs : List Object) (h : xs.isEmpty = false) :
    (Object.list xs).fmt = "[" ++ String.join (xs.map Object.fmt) ++ "]" := by
  rw [show (Object.list xs).fmt = fmt_impl (.list xs) 0 false from rfl]
  rw [show fmt_impl (.list xs) 0 false =
    (if xs.isEmpty then "[]" else "[" ++ fmt_list_compact xs ++ "]") by simp [fmt_impl]]
  rw [h, fmt_list_compact_eq_join]
  rfl

/-- C2 witness: the amended statement instantiated at the two-element
list of scalars a and b, hypotheses discharged by evaluation. -/
theorem list_compact_concatenates_witness :
    ([Object.value "a", Object.value "b"] : List Object).isEmpty = false ∧
    (Object.list [Object.value "a", Object.value "b"]).fmt =
      "[" ++ String.join ([Object.value "a", Object.value "b"].map Object.fmt) ++ "]" :=
  ⟨by decide, list_compact_concatenates [Object.value "a", Object.value "b"] (by decide)⟩

/-- C3 (counterexample): for the one-entry table with key k and scalar
value v the claim predicts the entry rendered as key, equals sign, value;
the code instead renders the quoted key, then the value, then the equals
sign. -/
theorem table_compact_not_key_eq_value :
    (Object.tableF [("k", Object.value "v")]).fmt ≠ "\x7b\"k\"=\"v\"\x7d" ∧
    (Object.tableF [("k", Object.value "v")]).fmt = "\x7b\"k\"\"v\"=\x7d" := by
  constructor <;> decide

/-- C3 (amended): for every non-empty table node, the compact encoding is
a left brace, followed by the entries concatenated with NO separator,
followed by a right brace, where each entry is the quoted key, then the
child's compact encoding, then a trailing equals sign. -/
theorem table_compact_entry_form (m : List (String × Object)) (h : m.isEmpty = false) :
    (Object.table m).fmt = "\x7b" ++ String.join (m.map entryCompact) ++ "\x7d" := by
  rw [show (Object.table m).fmt = fmt_impl (.table m) 0 false from rfl]
  rw [show fmt_impl (.table m) 0 false =
    (if m.isEmpty then "\x7b\x7d" else "\x7b" ++ fmt_table_compact m ++ "\x7d") by
      simp [fmt_impl]]
  rw [h, fmt_table_compact_eq_join]
  rfl

/-- C3 witness: the amended statement instantiated at the one-entry table
with key k and scalar value v. -/
theorem table_compact_entry_form_witness :
    ([("k", Object.value "v")] : List (String × Object)).isEmpty = false ∧
    (Object.table [("k", Object.value "v")]).fmt =
      "\x7b" ++ String.join ([("k", Object.value "v")].map entryCompact) ++ "\x7d" :=
  ⟨by decide, table_compact_entry_form [("k", Object.value "v")] (by decide)⟩

/-- C4 (counterexample): the scalar storing the three characters a, double
quote, b encodes to a double quote, the raw text, and a double quote (five
characters, the stored quote NOT escaped), not to the claimed escaped
form. -/
theorem scalar_not_escaped :
    (Object.value "a\"b").fmt = "\"a\"b\"" ∧
    (Object.value "a\"b").fmt ≠ "\"a\\\"b\"" := by
  constructor <;> decide

/-- C4 (amended): a scalar node encodes as a double quote, the stored text
verbatim, and a double quote; no character of the text is escaped (no rule
for quotes, backslashes or control characters exists in the code). -/
theorem scalar_fmt_verbatim (s : String) :
    (Object.value s).fmt = "\"" ++ s ++ "\"" := rfl

/-- C5 (counterexample): constructing a table from a literal entry list
containing the key k twice succeeds (there is no error path in the code):
the result is a TABLE node whose map holds the first entry for k. -/
theorem duplicate_key_construction_succeeds :
    (Object.tableF [("k", Object.value "1"), ("k", Object.value "2")]).type =
      ObjectType.TABLE ∧
    (Object.tableF [("k", Object.value "1"), ("k", Object.value "2")]).get_table =
      some [("k", Object.value "1")] :=
  ⟨rfl, rfl⟩

/-- C5 (amended): constructing a table from the literal entry list with
the same key k twice does not fail; the underlying map insertion keeps the
first occurrence and silently drops the second, so the result equals the
table built from the first entry alone. -/
theorem duplicate_key_first_wins :
    Object.tableF [("k", Object.value "1"), ("k", Object.value "2")] =
      Object.table [("k", Object.value "1")] := rfl

/-- C8: encoding an empty list yields the two-character string of square
brackets and an empty table the two-character string of braces, in both
compact and pretty mode, and the factory applied to zero entries builds
the empty table; in particular the pretty outputs contain no newline. -/
theorem empty_containers :
    (Object.list []).fmt = "[]" ∧
    (Object.list []).fmt_pretty = "[]" ∧
    (Object.table []).fmt = "\x7b\x7d" ∧
    (Object.table []).fmt_pretty = "\x7b\x7d" ∧
    Object.tableF [] = Object.table [] ∧
    ((Object.list []).fmt_pretty.data.contains '\n') = false ∧
    ((Object.table []).fmt_pretty.data.contains '\n') = false := by
  refine ⟨rfl, rfl, rfl, rfl, rfl, by decide, by decide⟩

/-- C9: on every node, each accessor succeeds exactly when the node's kind
matches (so exactly one of the three succeeds, in agreement with type),
the successful accessor returns the stored payload, and each mismatching
accessor returns the empty optional, never a default value. -/
theorem accessor_per_kind (t : Object) :
    (t.get_value.isSome ↔ t.type = ObjectType.VALUE) ∧
    (t.get_list.isSome ↔ t.type = ObjectType.LIST) ∧
    (t.get_table.isSome ↔ t.type = ObjectType.TABLE) ∧
    (∀ s, t = Object.value s → t.get_value = some s) ∧
    (∀ xs, t = Object.list xs → t.get_list = some xs) ∧
    (∀ m, t = Object.table m → t.get_table = some m) ∧
    (t.type ≠ ObjectType.VALUE → t.get_value = none) ∧
    (t.type ≠ ObjectType.LIST → t.get_list = none) ∧
    (t.type ≠ ObjectType.TABLE → t.get_table = none) := by
  cases t <;>
    simp [Object.get_value, Object.get_list, Object.get_table, Object.type]

/-- C9 witness: the accessor theorem applied to the scalar node storing
the text a, with every hypothesis discharged at that input. -/
theorem accessor_per_kind_witness :
    (Object.value "a").get_value = some "a" ∧
    (Object.value "a").get_list = none ∧
    (Object.value "a").get_table = none :=
  ⟨(accessor_per_kind (Object.value "a")).2.2.2.1 "a" rfl,
   (accessor_per_kind (Object.value "a")).2.2.2.2.2.2.2.1 (by decide),
   (accessor_per_kind (Object.value "a")).2.2.2.2.2.2.2.2 (by decide)⟩

/-- C10: the default-constructed Object is a well-formed scalar: its type
is VALUE, get_value returns the empty string, and fmt returns the
two-character string made of two double quotes. -/
theorem default_object_is_empty_scalar :
    Object.defaultObj.type = ObjectType.VALUE ∧
    Object.defaultObj.get_value = some "" ∧
    Object.defaultObj.fmt = "\"\"" ∧
    Object.defaultObj.fmt.length = 2 :=
  ⟨rfl, rfl, rfl, rfl⟩


/-! Claim C7: table entries are emitted in ascending key order. -/

theorem charListLt_trans {a b c : List Char} (hab : charListLt a b = true)
    (hbc : charListLt b c = true) : charListLt a c = true := by
  induction a generalizing b c with
  | nil =>
    cases b with
    | nil => simp [charListLt] at hab
    | cons bh bt =>
      cases c with
      | nil => simp [charListLt] at hbc
      | cons ch ct => simp [charListLt]
  | cons ah as ih =>
    cases b with
    | nil => simp [charListLt] at hab
    | cons bh bt =>
      cases c with
      | nil => simp [charListLt] at hbc
      | cons ch ct =>
        simp only [charListLt] at hab hbc ⊢
        by_cases h1 : ah.toNat < bh.toNat <;> by_cases h2 : bh.toNat < ch.toNat <;>
          by_cases h3 : bh.toNat < ah.toNat <;> by_cases h4 : ch.toNat < bh.toNat <;>
          simp [h1, h2, h3, h4] at hab hbc ⊢ <;>
          first
            | omega
            | rfl
            | (exact Or.inl (by omega))
            | (exact Or.inr ⟨by omega, ih hab hbc⟩)

theorem strLt_trans {a b c : String} (hab : strLt a b = true) (hbc : strLt b c = true) :
    strLt a c = true :=
  charListLt_trans hab hbc

theorem mem_mapInsert : ∀ {m : List (String × Object)} {e p : String × Object},
    p ∈ mapInsert m e → p = e ∨ p ∈ m
  | [], e, p, h => by
      simp [mapInsert] at h
      exact Or.inl h
  | (k, v) :: rest, e, p, h => by
      simp only [mapInsert] at h
      split at h
      · rcases List.mem_cons.mp h with h2 | h2
        · exact Or.inl h2
        · exact Or.inr h2
      · split at h
        · rcases List.mem_cons.mp h with h2 | h2
          · exact Or.inr (h2 ▸ List.mem_cons_self _ _)
          · rcases mem_mapInsert h2 with h3 | h3
            · exact Or.inl h3
            · exact Or.inr (List.mem_cons_of_mem _ h3)
        · exact Or.inr h

theorem pairwise_mapInsert {m : List (String × Object)} (e : String × Object)
    (h : m.Pairwise keyLt) : (mapInsert m e).Pairwise keyLt := by
  induction m with
  | nil => simp [mapInsert]
  | cons kv rest ih =>
    obtain ⟨k, v⟩ := kv
    rw [List.pairwise_cons] at h
    obtain ⟨hk, hrest⟩ := h
    simp only [mapInsert]
    split
    · rename_i hlt
      rw [List.pairwise_cons]
      refine ⟨?_, List.pairwise_cons.mpr ⟨hk, hrest⟩⟩
      intro p hp
      rcases List.mem_cons.mp hp with h2 | h2
      · exact h2 ▸ hlt
      · exact strLt_trans hlt (hk p h2)
    · split
      · rename_i hnlt hgt
        rw [List.pairwise_cons]
        refine ⟨?_, ih hrest⟩
        intro p hp
        rcases mem_mapInsert hp with h2 | h2
        · exact h2 ▸ hgt
        · exact hk p h2
      · exact List.pairwise_cons.mpr ⟨hk, hrest⟩

theorem pairwise_foldl_mapInsert : ∀ (il : List (String × Object))
    (acc : List (String × Object)), acc.Pairwise keyLt →
    (il.foldl mapInsert acc).Pairwise keyLt
  | [], _, h => h
  | e :: rest, acc, h =>
      pairwise_foldl_mapInsert rest (mapInsert acc e) (pairwise_mapInsert e h)

theorem pairwise_mapOfList (il : List (String × Object)) :
    (mapOfList il).Pairwise keyLt :=
  pairwise_foldl_mapInsert il [] (List.Pairwise.nil)

/-- C7: the entry list of every factory-built table is strictly ascending
in the map's key order, and both the compact and the pretty encoding emit
the entries in exactly that ascending order (entries are rendered by
mapping over the ordered entry list, so encoding is deterministic and
byte-stable for a given tree). -/
theorem table_entries_sorted (il : List (String × Object))
    (h : (mapOfList il).isEmpty = false) :
    (mapOfList il).Pairwise keyLt ∧
    (Object.tableF il).fmt =
      "\x7b" ++ String.join ((mapOfList il).map entryCompact) ++ "\x7d" ∧
    (Object.tableF il).fmt_pretty =
      "\x7b\n" ++
        String.intercalate "\n" ((mapOfList il).map fun p => fmt_table_entry 0 p.1 p.2) ++
        "\n" ++ indent_str 0 ++ "\x7d" := by
  refine ⟨pairwise_mapOfList il, ?_, ?_⟩
  · rw [show (Object.tableF il).fmt = fmt_impl (.table (mapOfList il)) 0 false from rfl]
    rw [show fmt_impl (.table (mapOfList il)) 0 false =
      (if (mapOfList il).isEmpty then "\x7b\x7d"
       else "\x7b" ++ fmt_table_compact (mapOfList il) ++ "\x7d") by simp [fmt_impl]]
    rw [h, fmt_table_compact_eq_join]
    rfl
  · rw [show (Object.tableF il).fmt_pretty = fmt_impl (.table (mapOfList il)) 0 true from rfl]
    rw [show fmt_impl (.table (mapOfList il)) 0 true =
      (if (mapOfList il).isEmpty then "\x7b\x7d"
       else "\x7b\n" ++ fmt_table_pretty (mapOfList il) 0 ++ "\n" ++ indent_str 0 ++ "\x7d") by
        simp [fmt_impl]]
    rw [h, fmt_table_pretty_eq_intercalate]
    rfl

/-- C7 witness: the sortedness and ordered-output statement applied to a
table literal whose keys arrive in descending order; the map reorders them
ascending. -/
theorem table_entries_sorted_witness :
    (mapOfList [("b", Object.value "2"), ("a", Object.value "1")]).isEmpty = false ∧
    ((mapOfList [("b", Object.value "2"), ("a", Object.value "1")]).Pairwise keyLt ∧
     (Object.tableF [("b", Object.value "2"), ("a", Object.value "1")]).fmt =
       "\x7b" ++ String.join ((mapOfList [("b", Object.value "2"),
         ("a", Object.value "1")]).map entryCompact) ++ "\x7d" ∧
     (Object.tableF [("b", Object.value "2"), ("a", Object.value "1")]).fmt_pretty =
       "\x7b\n" ++
         String.intercalate "\n" ((mapOfList [("b", Object.value "2"),
           ("a", Object.value "1")]).map fun p => fmt_table_entry 0 p.1 p.2) ++
         "\n" ++ indent_str 0 ++ "\x7d") :=
  ⟨by decide, table_entries_sorted [("b", Object.value "2"), ("a", Object.value "1")]
    (by decide)⟩


/-! Claim C6: relation between the pretty and the compact encoding. -/

theorem filter_wsP_replicate_space (n : Nat) :
    (List.replicate n ' ').filter wsP = [] := by
  induction n with
  | zero => rfl
  | succ n ih => simp [List.replicate_succ, List.filter_cons, ih, wsP]

theorem indent_str_filter (n : Nat) : (indent_str n).data.filter wsP = [] := by
  show (List.replicate (n * 2) ' ').filter wsP = []
  exact filter_wsP_replicate_space (n * 2)

mutual

theorem strip_fmt_impl : ∀ (t : Object), ws_free t = true → ∀ (ind : Nat),
    (fmt_impl t ind true).data.filter wsP = (fmt_impl t ind false).data
  | .value s, h, ind => by
      have hs : s.data.filter wsP = s.data :=
        List.filter_eq_self.mpr (List.all_eq_true.mp (by simpa [ws_free] using h))
      simp only [fmt_impl, String.data_append, List.filter_append]
      rw [hs]
      rfl
  | .list xs, h, ind => by
      cases xs with
      | nil => rfl
      | cons x xs2 =>
          have hl : ws_free_list (x :: xs2) = true := by simpa [ws_free] using h
          simp only [fmt_impl, List.isEmpty_cons, Bool.not_true, Bool.not_false,
            Bool.false_eq_true, if_false, String.data_append, List.filter_append]
          rw [indent_str_filter, strip_fmt_list (x :: xs2) hl ind]
          simp [wsP]
  | .table m, h, ind => by
      simp [ws_free] at h

theorem strip_fmt_list : ∀ (xs : List Object), ws_free_list xs = true → ∀ (ind : Nat),
    (fmt_list_pretty xs ind).data.filter wsP = (fmt_list_compact xs).data
  | [], _, _ => rfl
  | [x], h, ind => by
      have hx : ws_free x = true := by simpa [ws_free_list] using h
      simp only [fmt_list_pretty, fmt_list_compact, String.data_append, List.filter_append]
      rw [indent_str_filter, strip_fmt_impl x hx (ind + 1), fmt_impl_compact_indent x (ind + 1)]
      simp
  | x :: y :: xs2, h, ind => by
      obtain ⟨hx, hrest⟩ : ws_free x = true ∧ ws_free_list (y :: xs2) = true := by
        simpa [ws_free_list, Bool.and_eq_true] using h
      simp only [fmt_list_pretty, fmt_list_compact, String.data_append, List.filter_append]
      rw [indent_str_filter, strip_fmt_impl x hx (ind + 1), fmt_impl_compact_indent x (ind + 1),
        strip_fmt_list (y :: xs2) hrest ind]
      simp [wsP, fmt_list_compact, String.data_append]

end

/-- C6 (counterexample): for the one-entry table with key k and scalar
value v, deleting every space and newline from the pretty encoding does
not give the compact encoding — the pretty TABLE loop emits brace
characters around keys and entries that the compact loop does not, and
places the equals sign differently. -/
theorem pretty_strip_table_counterexample :
    stripWs (Object.tableF [("k", Object.value "v")]).fmt_pretty ≠
      (Object.tableF [("k", Object.value "v")]).fmt := by
  decide

/-- C6 (amended): for every node that contains no table anywhere and
whose scalar texts contain no space or newline of their own (so that
deleting all spaces and newlines deletes exactly what the pretty printer
inserted), deleting the spaces and newlines from the pretty encoding
yields exactly the compact encoding; for nodes containing a table the
two encodings differ by more than whitespace. -/
theorem pretty_strips_to_compact (t : Object) (h : ws_free t = true) :
    stripWs t.fmt_pretty = t.fmt := by
  apply String.ext
  show (fmt_impl t 0 true).data.filter wsP = (fmt_impl t 0 false).data
  exact strip_fmt_impl t h 0

/-- C6 witness: the amended statement applied to a nested list of
whitespace-free scalars. -/
theorem pretty_strips_to_compact_witness :
    ws_free (Object.list [Object.value "a", Object.list [Object.value "b"]]) = true ∧
    stripWs (Object.list [Object.value "a", Object.list [Object.value "b"]]).fmt_pretty =
      (Object.list [Object.value "a", Object.list [Object.value "b"]]).fmt :=
  ⟨by decide, pretty_strips_to_compact _ (by decide)⟩

end sfmt
